import Mathlib

/-!
Verification of the Dutch-auction lifecycle engine of this repository.

The repository's own sources provide the protobuf data model
(`penumbra.core.component.auction.v1alpha1.rs`: `AuctionId`, `AuctionNft`,
`DutchAuctionDescription`, `DutchAuctionState`, the action messages), the
governance proposal conversions (`proposal.rs`) and the swap ciphertext
conversions (`ciphertext.rs`).  The executable engine (price model, trigger
scheduler, lifecycle state machine, ownership guard, withdrawal commitment
verifier) is declared but not implemented in the sources available here, so
those parts are modelled from the specification, as indicated by the doc
comments below.
-/

/-- The immutable description of a Dutch auction, after
`DutchAuctionDescription` in `penumbra.core.component.auction.v1alpha1.rs`.
Assets and amounts are modelled as natural numbers; the `nonce` is a byte
string modelled as a list of naturals. -/
structure DutchAuctionDescription where
  input_asset : Nat
  input_amount : Nat
  output_id : Nat
  max_output : Nat
  min_output : Nat
  start_height : Nat
  end_height : Nat
  step_count : Nat
  nonce : List Nat
deriving DecidableEq, Repr

/-- Modelled from the spec: the validity invariants on a description
(`max_output ≥ min_output`, `end_height > start_height`, `step_count ≥ 1`,
`(end_height - start_height) mod step_count == 0`). -/
def validDescription (d : DutchAuctionDescription) : Prop :=
  d.min_output ≤ d.max_output ∧
  d.start_height < d.end_height ∧
  1 ≤ d.step_count ∧
  (d.end_height - d.start_height) % d.step_count = 0

instance (d : DutchAuctionDescription) : Decidable (validDescription d) := by
  unfold validDescription; infer_instance

/-- Modelled from the spec: `step_length = (end_height - start_height) / step_count`. -/
def stepLength (d : DutchAuctionDescription) : Nat :=
  (d.end_height - d.start_height) / d.step_count

/-- Modelled from the spec: the step index
`i = floor((height - start_height) / step_length)`, clamped to `[0, step_count]`.
All arithmetic is natural-number arithmetic, so the subtraction saturates at
zero for heights before `start_height` and division truncates toward zero. -/
def stepIndex (d : DutchAuctionDescription) (height : Nat) : Nat :=
  min ((height - d.start_height) / stepLength d) d.step_count

/-- Modelled from the spec: the price model, §4.1.  Returns the maximum output
offered at `height`:
`max_output - i * (max_output - min_output) / step_count` with `i` the clamped
step index, computed in integer arithmetic truncating toward zero. -/
def price_at (d : DutchAuctionDescription) (height : Nat) : Nat :=
  d.max_output - stepIndex d height * (d.max_output - d.min_output) / d.step_count

theorem stepIndex_mono (d : DutchAuctionDescription) {h1 h2 : Nat} (h : h1 ≤ h2) :
    stepIndex d h1 ≤ stepIndex d h2 := by
  unfold stepIndex
  exact min_le_min (Nat.div_le_div_right (Nat.sub_le_sub_right h _)) le_rfl

theorem price_at_antitone (d : DutchAuctionDescription) {h1 h2 : Nat} (h : h1 ≤ h2) :
    price_at d h2 ≤ price_at d h1 := by
  unfold price_at
  exact Nat.sub_le_sub_left
    (Nat.div_le_div_right (Nat.mul_le_mul_right _ (stepIndex_mono d h))) _

/-- C2: for every description satisfying the validity invariants, `price_at` is
monotone non-increasing in height: `price_at d h1 ≥ price_at d h2` whenever
`start_height ≤ h1 ≤ h2 ≤ end_height`. -/
theorem c2_price_monotonicity (d : DutchAuctionDescription) (h1 h2 : Nat)
    (hvalid : validDescription d)
    (hlo : d.start_height ≤ h1) (h12 : h1 ≤ h2) (hhi : h2 ≤ d.end_height) :
    price_at d h2 ≤ price_at d h1 :=
  price_at_antitone d h12

/-- Witness for C2 on the spec's concrete scenario. -/
theorem c2_price_monotonicity_witness :
    validDescription ⟨0, 100, 1, 1000, 200, 100, 200, 4, []⟩ ∧
    price_at ⟨0, 100, 1, 1000, 200, 100, 200, 4, []⟩ 150 ≤
      price_at ⟨0, 100, 1, 1000, 200, 100, 200, 4, []⟩ 125 :=
  ⟨by decide,
   c2_price_monotonicity ⟨0, 100, 1, 1000, 200, 100, 200, 4, []⟩ 125 150
     (by decide) (by decide) (by decide) (by decide)⟩

/-- C3: `price_at` is exactly the step-indexed linear interpolation
`max_output - i * (max_output - min_output) / step_count` with
`i = min ((height - start_height) / ((end_height - start_height) / step_count)) step_count`,
and on the spec scenario (`start_height=100`, `end_height=200`, `step_count=4`,
`max_output=1000`, `min_output=200`) it yields 1000 at height 100, 800 at 125,
600 at 150 and 200 at 200, with step length 25. -/
theorem c3_price_formula :
    (∀ (d : DutchAuctionDescription) (height : Nat),
      price_at d height =
        d.max_output -
          min ((height - d.start_height) / ((d.end_height - d.start_height) / d.step_count))
              d.step_count * (d.max_output - d.min_output) / d.step_count) ∧
    stepLength ⟨0, 100, 1, 1000, 200, 100, 200, 4, []⟩ = 25 ∧
    price_at ⟨0, 100, 1, 1000, 200, 100, 200, 4, []⟩ 100 = 1000 ∧
    price_at ⟨0, 100, 1, 1000, 200, 100, 200, 4, []⟩ 125 = 800 ∧
    price_at ⟨0, 100, 1, 1000, 200, 100, 200, 4, []⟩ 150 = 600 ∧
    price_at ⟨0, 100, 1, 1000, 200, 100, 200, 4, []⟩ 200 = 200 :=
  ⟨fun _ _ => rfl, by decide, by decide, by decide, by decide, by decide⟩

/-- Modelled from the spec: the domain separator for auction IDs.  The hash
function itself lives outside the sources available here; per the spec the ID
is "a domain-separated cryptographic hash over the serialized immutable
Description", and distinct serialized descriptions yield distinct IDs.  The
hash is therefore modelled as the domain-separated serialization itself, which
has exactly the collision behaviour the spec prescribes. -/
def auctionIdDomainSep : List Nat := [97, 117, 99, 116, 105, 111, 110]

/-- Modelled from the spec: an injective serialization of the immutable
description fields, with the variable-length `nonce` length-prefixed. -/
def serializeDescription (d : DutchAuctionDescription) : List Nat :=
  [d.input_asset, d.input_amount, d.output_id, d.max_output, d.min_output,
   d.start_height, d.end_height, d.step_count, d.nonce.length] ++ d.nonce

/-- Modelled from the spec: `AuctionId` as the domain-separated hash of the
serialized immutable description (`AuctionId` in
`penumbra.core.component.auction.v1alpha1.rs`). -/
def auctionIdOf (d : DutchAuctionDescription) : List Nat :=
  auctionIdDomainSep ++ serializeDescription d

/-- C7: the auction ID is a deterministic function of the immutable
description, equal descriptions (including nonce) give equal IDs, and
descriptions differing in any field (including nonce) give different IDs. -/
theorem c7_auction_id_injective (d1 d2 : DutchAuctionDescription) :
    auctionIdOf d1 = auctionIdOf d2 ↔ d1 = d2 := by
  constructor
  · intro h
    unfold auctionIdOf at h
    have h2 := List.append_cancel_left h
    cases d1
    cases d2
    simp only [serializeDescription, List.cons_append, List.nil_append,
      List.cons.injEq, DutchAuctionDescription.mk.injEq] at h2 ⊢
    obtain ⟨e1, e2, e3, e4, e5, e6, e7, e8, _, e9⟩ := h2
    exact ⟨e1, e2, e3, e4, e5, e6, e7, e8, e9⟩
  · intro h
    rw [h]

/-- A DEX position owned by an auction, holding reserves of the input and
output assets.  The matching engine is an external collaborator; only the
reserves are relevant to the lifecycle engine. -/
structure Position where
  pos_input : Nat
  pos_output : Nat
deriving DecidableEq, Repr

/-- The mutable auction state, after `DutchAuctionState` in
`penumbra.core.component.auction.v1alpha1.rs` (`seq`, optional
`current_position`, `next_trigger`, `input_reserves`, `output_reserves`).
`next_trigger` is modelled as an optional height per its field documentation
("If present, the next trigger height"). -/
structure DutchAuctionState where
  seq : Nat
  current_position : Option Position
  next_trigger : Option Nat
  input_reserves : Nat
  output_reserves : Nat
deriving DecidableEq, Repr

/-- An auction record: immutable description plus mutable state, after
`DutchAuction` in `penumbra.core.component.auction.v1alpha1.rs`. -/
structure DutchAuction where
  description : DutchAuctionDescription
  state : DutchAuctionState
deriving DecidableEq, Repr

/-- Typed rejection reasons for external actions, per the error taxonomy of
the spec (sequence mismatch, commitment mismatch, nothing to withdraw, ...). -/
inductive RejectReason where
  | seqMismatch
  | alreadyClosed
  | notClosed
  | positionStillOpen
  | nothingToWithdraw
  | commitmentMismatch
deriving DecidableEq, Repr

/-- Modelled from the spec, §4.4: the ownership/bearer-token guard,
`authorize(record, claimed_seq)`: the pure equality check
`claimed_seq == record.state.seq`. -/
def authorize (record : DutchAuction) (claimed_seq : Nat) : Bool :=
  claimed_seq == record.state.seq

/-- Modelled from the spec: the boundary height of the step following the one
containing `h`. -/
def nextBoundary (d : DutchAuctionDescription) (h : Nat) : Nat :=
  d.start_height + (stepIndex d h + 1) * stepLength d

/-- Modelled from the spec: the next trigger height scheduled at height `h`:
`start_height` if the auction has not started yet, otherwise
`min(next step boundary, end_height)`. -/
def computeTrigger (d : DutchAuctionDescription) (h : Nat) : Nat :=
  if h < d.start_height then d.start_height
  else min (nextBoundary d h) d.end_height

/-- Modelled from the spec, §4.3 Schedule: creates the record with `seq = 0`;
if `start_height ≤ current height` immediately opens a position at the current
price using all input; schedules the next trigger. -/
def scheduleAuction (d : DutchAuctionDescription) (h : Nat) : DutchAuction :=
  if d.start_height ≤ h then
    { description := d
      state :=
        { seq := 0
          current_position := some { pos_input := d.input_amount, pos_output := 0 }
          next_trigger := some (computeTrigger d h)
          input_reserves := 0
          output_reserves := 0 } }
  else
    { description := d
      state :=
        { seq := 0
          current_position := none
          next_trigger := some d.start_height
          input_reserves := d.input_amount
          output_reserves := 0 } }

/-- Modelled from the spec: closing `current_position` recovers amounts
`(rin, rout)` (reported by the external DEX collaborator) into the direct
reserves; a no-op when no position is open. -/
def closePosition (st : DutchAuctionState) (rin rout : Nat) : DutchAuctionState :=
  match st.current_position with
  | none => st
  | some _ =>
    { st with
      current_position := none
      input_reserves := st.input_reserves + rin
      output_reserves := st.output_reserves + rout }

/-- Modelled from the spec, §4.3 Step (scheduler-driven): close the current
position recovering `(rin, rout)`; before `end_height` open a new position
from the recovered input reserves and advance `next_trigger`; at or past
`end_height` transition to Closed (`seq = 1`, position and trigger cleared).
Only an open auction (`seq = 0`) is ever triggered. -/
def stepAuction (rec : DutchAuction) (h rin rout : Nat) : DutchAuction :=
  if rec.state.seq ≠ 0 then rec
  else if h < rec.description.end_height then
    { rec with
      state :=
        { closePosition rec.state rin rout with
          current_position :=
            some { pos_input := (closePosition rec.state rin rout).input_reserves
                   pos_output := 0 }
          input_reserves := 0
          next_trigger := some (computeTrigger rec.description h) } }
  else
    { rec with
      state :=
        { closePosition rec.state rin rout with
          seq := 1, current_position := none, next_trigger := none } }

/-- Modelled from the spec, §4.3 End (external action): requires passing the
guard with `seq = 0`; forcibly closes the position (recovering `(rin, rout)`)
and transitions to Closed exactly as the terminal Step would. -/
def endAuction (rec : DutchAuction) (claimed_seq rin rout : Nat) :
    Except RejectReason DutchAuction :=
  if ¬ authorize rec claimed_seq then .error .seqMismatch
  else if rec.state.seq ≠ 0 then .error .alreadyClosed
  else
    .ok { rec with
          state :=
            { closePosition rec.state rin rout with
              seq := 1, current_position := none, next_trigger := none } }

/-- Modelled from the spec, §4.3 Withdraw and §4.5: the action passes the
guard, requires `seq ≥ 1` and no current position; an auction with both
reserves zero rejects with nothing-to-withdraw; the engine recomputes the
transparent commitment over the actual `(input_reserves, output_reserves)`
with the pluggable commitment capability `commit` and requires byte-exact
equality with the supplied commitment; on success reserves are zeroed and
`seq` increments by one. -/
def withdrawAuction (commit : Nat → Nat → List Nat) (rec : DutchAuction)
    (claimed_seq : Nat) (supplied : List Nat) : Except RejectReason DutchAuction :=
  if ¬ authorize rec claimed_seq then .error .seqMismatch
  else if rec.state.seq = 0 then .error .notClosed
  else if rec.state.current_position.isSome then .error .positionStillOpen
  else if rec.state.input_reserves = 0 ∧ rec.state.output_reserves = 0 then
    .error .nothingToWithdraw
  else if supplied ≠ commit rec.state.input_reserves rec.state.output_reserves then
    .error .commitmentMismatch
  else
    .ok { rec with
          state :=
            { rec.state with
              seq := rec.state.seq + 1
              input_reserves := 0
              output_reserves := 0 } }

/-- Modelled from the spec, §6: the commitment capability
`commit(amount_a, amount_b, blinding = 0)`, a deterministic, publicly
computable function of the two amounts alone.  The leading `0` byte stands for
the zero blinding factor. -/
def commitModel (a b : Nat) : List Nat := [0, a, b]

/-- A rejected action leaves the caller holding the unchanged record. -/
def applyResult (rec : DutchAuction) : Except RejectReason DutchAuction → DutchAuction
  | .ok r => r
  | .error _ => rec

/-- One transition of the lifecycle state machine: a scheduler-driven step or
an external End/Withdraw action (with the recovered amounts reported by the
DEX collaborator, respectively the supplied commitment, as event data). -/
inductive AuctionEvent where
  | stepAt (h rin rout : Nat)
  | endAct (claimed rin rout : Nat)
  | withdrawAct (claimed : Nat) (supplied : List Nat)

/-- Apply one event to a record; rejected actions leave the record unchanged. -/
def applyEvent (rec : DutchAuction) : AuctionEvent → DutchAuction
  | .stepAt h rin rout => stepAuction rec h rin rout
  | .endAct claimed rin rout => applyResult rec (endAuction rec claimed rin rout)
  | .withdrawAct claimed supplied =>
      applyResult rec (withdrawAuction commitModel rec claimed supplied)

/-- Apply a finite sequence of events. -/
def applyEvents (rec : DutchAuction) (es : List AuctionEvent) : DutchAuction :=
  es.foldl applyEvent rec

theorem closePosition_seq (st : DutchAuctionState) (rin rout : Nat) :
    (closePosition st rin rout).seq = st.seq := by
  cases hc : st.current_position <;> simp [closePosition, hc]

theorem seq_le_applyResult (rec : DutchAuction) (r : Except RejectReason DutchAuction)
    (h : ∀ rec2, r = .ok rec2 → rec.state.seq ≤ rec2.state.seq) :
    rec.state.seq ≤ (applyResult rec r).state.seq := by
  cases r with
  | error e => exact le_rfl
  | ok rec2 => exact h rec2 rfl

theorem seq_le_applyEvent (rec : DutchAuction) (e : AuctionEvent) :
    rec.state.seq ≤ (applyEvent rec e).state.seq := by
  cases e with
  | stepAt h rin rout =>
    simp only [applyEvent]
    unfold stepAuction
    split
    · exact le_rfl
    · rename_i hseq
      exact le_of_eq_of_le (not_not.mp hseq) (Nat.zero_le _)
  | endAct claimed rin rout =>
    simp only [applyEvent]
    refine seq_le_applyResult rec _ ?_
    intro rec2 hr
    unfold endAuction at hr
    split at hr
    · exact Except.noConfusion hr
    split at hr
    · exact Except.noConfusion hr
    rename_i h1 h2
    injection hr with hr2
    rw [← hr2]
    exact le_of_eq_of_le (not_not.mp h2) (Nat.zero_le _)
  | withdrawAct claimed supplied =>
    simp only [applyEvent]
    refine seq_le_applyResult rec _ ?_
    intro rec2 hr
    unfold withdrawAuction at hr
    split at hr
    · exact Except.noConfusion hr
    split at hr
    · exact Except.noConfusion hr
    split at hr
    · exact Except.noConfusion hr
    split at hr
    · exact Except.noConfusion hr
    split at hr
    · exact Except.noConfusion hr
    injection hr with hr2
    rw [← hr2]
    exact Nat.le_succ _

theorem seq_le_applyEvents (rec : DutchAuction) (es : List AuctionEvent) :
    rec.state.seq ≤ (applyEvents rec es).state.seq := by
  induction es generalizing rec with
  | nil => exact le_rfl
  | cons e es ih => exact le_trans (seq_le_applyEvent rec e) (ih (applyEvent rec e))

theorem authorize_false_of_ne {rec : DutchAuction} {claimed : Nat}
    (hne : claimed ≠ rec.state.seq) : authorize rec claimed = false := by
  simp [authorize, hne]

/-- C1: `seq` is non-decreasing across any sequence of Step/End/Withdraw
transitions (rejected actions leave the record unchanged), every external
action presenting a `claimed_seq` different from the current `state.seq` is
rejected with a sequence mismatch without mutating the auction's state, and
the guard is the pure equality check `claimed_seq == record.state.seq`. -/
theorem c1_seq_monotone_guard :
    (∀ (rec : DutchAuction) (es : List AuctionEvent),
        rec.state.seq ≤ (applyEvents rec es).state.seq) ∧
    (∀ (rec : DutchAuction) (claimed : Nat),
        claimed ≠ rec.state.seq →
        (∀ rin rout, endAuction rec claimed rin rout = .error .seqMismatch) ∧
        (∀ (commit : Nat → Nat → List Nat) (supplied : List Nat),
            withdrawAuction commit rec claimed supplied = .error .seqMismatch) ∧
        (∀ rin rout, applyEvent rec (.endAct claimed rin rout) = rec) ∧
        (∀ supplied, applyEvent rec (.withdrawAct claimed supplied) = rec)) ∧
    (∀ (rec : DutchAuction) (claimed : Nat),
        authorize rec claimed = (claimed == rec.state.seq)) := by
  refine ⟨seq_le_applyEvents, ?_, fun _ _ => rfl⟩
  intro rec claimed hne
  have hb := authorize_false_of_ne hne
  refine ⟨?_, ?_, ?_, ?_⟩
  · intro rin rout
    simp [endAuction, hb]
  · intro commit supplied
    simp [withdrawAuction, hb]
  · intro rin rout
    simp [applyEvent, endAuction, hb, applyResult]
  · intro supplied
    simp [applyEvent, withdrawAuction, hb, applyResult]

/-- Witness for C1's guard clause on a concrete record and stale sequence
number. -/
theorem c1_seq_monotone_guard_witness :
    (5 ≠ (⟨⟨0, 100, 1, 1000, 200, 100, 200, 4, []⟩,
           ⟨0, none, some 100, 100, 0⟩⟩ : DutchAuction).state.seq) ∧
    endAuction ⟨⟨0, 100, 1, 1000, 200, 100, 200, 4, []⟩,
                ⟨0, none, some 100, 100, 0⟩⟩ 5 3 4 = .error .seqMismatch :=
  ⟨by decide,
   (c1_seq_monotone_guard.2.1
     ⟨⟨0, 100, 1, 1000, 200, 100, 200, 4, []⟩, ⟨0, none, some 100, 100, 0⟩⟩ 5
     (by decide)).1 3 4⟩

/-- The scheduled-work invariant: a trigger height is present exactly while
the auction is open (`seq = 0`), i.e. while a future step or the automatic end
at `end_height` is still scheduled. -/
def triggerInvariant (rec : DutchAuction) : Prop :=
  rec.state.next_trigger.isSome = true ↔ rec.state.seq = 0

theorem triggerInvariant_schedule (d : DutchAuctionDescription) (h : Nat) :
    triggerInvariant (scheduleAuction d h) := by
  unfold scheduleAuction triggerInvariant
  split <;> simp

theorem triggerInvariant_applyEvent {rec : DutchAuction} (e : AuctionEvent)
    (hinv : triggerInvariant rec) : triggerInvariant (applyEvent rec e) := by
  cases e with
  | stepAt h rin rout =>
    simp only [applyEvent]
    unfold stepAuction
    split
    · exact hinv
    · rename_i hseq
      split
      · unfold triggerInvariant
        simp [closePosition_seq, not_not.mp hseq]
      · unfold triggerInvariant
        simp
  | endAct claimed rin rout =>
    simp only [applyEvent]
    unfold endAuction
    split
    · exact hinv
    split
    · exact hinv
    unfold triggerInvariant applyResult
    simp
  | withdrawAct claimed supplied =>
    simp only [applyEvent]
    unfold withdrawAuction
    split
    · exact hinv
    split
    · exact hinv
    split
    · exact hinv
    split
    · exact hinv
    split
    · exact hinv
    rename_i h1 h2 h3 h4 h5
    have hnone : rec.state.next_trigger = none := by
      cases htr : rec.state.next_trigger with
      | none => rfl
      | some t =>
        exfalso
        exact h2 (hinv.mp (by rw [htr]; rfl))
    unfold triggerInvariant applyResult
    simp [hnone]

theorem triggerInvariant_applyEvents {rec : DutchAuction} (es : List AuctionEvent)
    (hinv : triggerInvariant rec) : triggerInvariant (applyEvents rec es) := by
  induction es generalizing rec with
  | nil => exact hinv
  | cons e es ih => exact ih (triggerInvariant_applyEvent e hinv)

/-- C8: in every state reachable from a Schedule action by scheduler-driven
steps and external End/Withdraw actions, `next_trigger` is present if and only
if the auction still has scheduled work (it is still open, `seq = 0`, awaiting
a future step or the automatic end at `end_height`), and is absent once the
auction is closed (`seq ≥ 1`). -/
theorem c8_next_trigger_iff_open (d : DutchAuctionDescription) (h : Nat)
    (es : List AuctionEvent) :
    ((applyEvents (scheduleAuction d h) es).state.next_trigger.isSome = true ↔
      (applyEvents (scheduleAuction d h) es).state.seq = 0) ∧
    (1 ≤ (applyEvents (scheduleAuction d h) es).state.seq →
      (applyEvents (scheduleAuction d h) es).state.next_trigger = none) := by
  have hinv := triggerInvariant_applyEvents es (triggerInvariant_schedule d h)
  refine ⟨hinv, ?_⟩
  intro hseq
  cases htr : (applyEvents (scheduleAuction d h) es).state.next_trigger with
  | none => rfl
  | some t =>
    exfalso
    have h0 := hinv.mp (by rw [htr]; rfl)
    omega

/-- Witness for C8 on a concrete trace: schedule at height 50, step at the
terminal height; the closed auction has `seq = 1` and no trigger. -/
theorem c8_next_trigger_iff_open_witness :
    1 ≤ (applyEvents (scheduleAuction ⟨0, 100, 1, 1000, 200, 100, 200, 4, []⟩ 50)
          [.stepAt 200 0 0]).state.seq ∧
    (applyEvents (scheduleAuction ⟨0, 100, 1, 1000, 200, 100, 200, 4, []⟩ 50)
          [.stepAt 200 0 0]).state.next_trigger = none :=
  ⟨by decide,
   (c8_next_trigger_iff_open ⟨0, 100, 1, 1000, 200, 100, 200, 4, []⟩ 50
     [.stepAt 200 0 0]).2 (by decide)⟩

/-- C5 counterexample: a Withdraw whose supplied commitment byte-exactly
equals the recomputed transparent commitment over the actual reserves
`(0, 0)` of a closed, fully-drained auction nevertheless does not succeed: it
is rejected with nothing-to-withdraw.  The claim's unconditional
"succeeds if and only if the commitment matches" is therefore false. -/
theorem c5_withdraw_iff_counterexample :
    commitModel 0 0 =
      commitModel
        (⟨⟨0, 100, 1, 1000, 200, 100, 200, 4, []⟩,
          ⟨1, none, none, 0, 0⟩⟩ : DutchAuction).state.input_reserves
        (⟨⟨0, 100, 1, 1000, 200, 100, 200, 4, []⟩,
          ⟨1, none, none, 0, 0⟩⟩ : DutchAuction).state.output_reserves ∧
    withdrawAuction commitModel
      ⟨⟨0, 100, 1, 1000, 200, 100, 200, 4, []⟩, ⟨1, none, none, 0, 0⟩⟩
      1 (commitModel 0 0) = .error .nothingToWithdraw :=
  ⟨rfl, rfl⟩

/-- C5 (amended): provided the Withdraw passes the sequence guard, the auction
is closed (`seq ≥ 1`), holds no current position, and has nonzero reserves,
the action succeeds iff the supplied commitment byte-exactly equals the
transparent commitment recomputed over the actual
`(input_reserves, output_reserves)`; on mismatch it is rejected (not fatal)
with the state unchanged, and on success the reserves are zeroed and `seq`
increments by exactly 1. -/
theorem c5_withdraw_commitment (commit : Nat → Nat → List Nat)
    (rec : DutchAuction) (claimed : Nat) (supplied : List Nat)
    (hauth : claimed = rec.state.seq) (hseq : 1 ≤ rec.state.seq)
    (hpos : rec.state.current_position = none)
    (hres : ¬ (rec.state.input_reserves = 0 ∧ rec.state.output_reserves = 0)) :
    ((∃ rec2, withdrawAuction commit rec claimed supplied = .ok rec2) ↔
      supplied = commit rec.state.input_reserves rec.state.output_reserves) ∧
    (supplied ≠ commit rec.state.input_reserves rec.state.output_reserves →
      withdrawAuction commit rec claimed supplied = .error .commitmentMismatch ∧
      applyResult rec (withdrawAuction commit rec claimed supplied) = rec) ∧
    (supplied = commit rec.state.input_reserves rec.state.output_reserves →
      withdrawAuction commit rec claimed supplied =
        .ok { rec with
              state :=
                { rec.state with
                  seq := rec.state.seq + 1
                  input_reserves := 0
                  output_reserves := 0 } }) := by
  have hseq0 : ¬ rec.state.seq = 0 := by omega
  by_cases hsup : supplied = commit rec.state.input_reserves rec.state.output_reserves
  · refine ⟨?_, ?_, ?_⟩
    · simp [withdrawAuction, authorize, hauth, hseq0, hpos, hres, hsup]
    · intro hne
      exact absurd hsup hne
    · intro _
      simp [withdrawAuction, authorize, hauth, hseq0, hpos, hres, hsup]
  · refine ⟨?_, ?_, ?_⟩
    · simp [withdrawAuction, authorize, hauth, hseq0, hpos, hres, hsup]
    · intro _
      simp [withdrawAuction, authorize, hauth, hseq0, hpos, hres, hsup, applyResult]
    · intro heq
      exact absurd heq hsup

/-- Witness for C5 on the spec scenario: withdrawing true reserves `(0, 950)`
from a closed auction with a matching transparent commitment succeeds and
bumps `seq` from 1 to 2. -/
theorem c5_withdraw_commitment_witness :
    withdrawAuction commitModel
      ⟨⟨0, 100, 1, 1000, 200, 100, 200, 4, []⟩, ⟨1, none, none, 0, 950⟩⟩
      1 (commitModel 0 950) =
    .ok ⟨⟨0, 100, 1, 1000, 200, 100, 200, 4, []⟩, ⟨2, none, none, 0, 0⟩⟩ :=
  (c5_withdraw_commitment commitModel
    ⟨⟨0, 100, 1, 1000, 200, 100, 200, 4, []⟩, ⟨1, none, none, 0, 950⟩⟩
    1 (commitModel 0 950) rfl (by decide) rfl (by decide)).2.2 rfl

/-- C6 counterexample: on a terminal auction (`seq = 1`, both reserves zero,
no position), a further Withdraw presenting a stale `claimed_seq` is rejected
with a sequence mismatch, not with the nothing-to-withdraw error, so "every
further Withdraw is rejected with a nothing-to-withdraw error" is false as
stated. -/
theorem c6_terminal_counterexample :
    withdrawAuction commitModel
      ⟨⟨0, 100, 1, 1000, 200, 100, 200, 4, []⟩, ⟨1, none, none, 0, 0⟩⟩
      0 (commitModel 0 0) = .error .seqMismatch ∧
    RejectReason.seqMismatch ≠ RejectReason.nothingToWithdraw :=
  ⟨rfl, by decide⟩

/-- C6 (amended): once an auction is terminal (`seq ≥ 1`, both reserves zero,
no current position), every further Withdraw presenting the current `seq` is
rejected with the nothing-to-withdraw error, every Withdraw presenting any
other `seq` is rejected with a sequence mismatch, and in either case the
auction's state is completely unchanged. -/
theorem c6_terminal_idempotent (commit : Nat → Nat → List Nat)
    (rec : DutchAuction) (claimed : Nat) (supplied : List Nat)
    (hseq : 1 ≤ rec.state.seq)
    (hin : rec.state.input_reserves = 0) (hout : rec.state.output_reserves = 0)
    (hpos : rec.state.current_position = none) :
    (claimed = rec.state.seq →
      withdrawAuction commit rec claimed supplied = .error .nothingToWithdraw) ∧
    (claimed ≠ rec.state.seq →
      withdrawAuction commit rec claimed supplied = .error .seqMismatch) ∧
    applyResult rec (withdrawAuction commit rec claimed supplied) = rec := by
  have hseq0 : ¬ rec.state.seq = 0 := by omega
  by_cases hcl : claimed = rec.state.seq
  · refine ⟨?_, fun hne => absurd hcl hne, ?_⟩
    · intro _
      simp [withdrawAuction, authorize, hcl, hseq0, hpos, hin, hout]
    · simp [withdrawAuction, authorize, hcl, hseq0, hpos, hin, hout, applyResult]
  · refine ⟨fun heq => absurd heq hcl, ?_, ?_⟩
    · intro _
      simp [withdrawAuction, authorize_false_of_ne hcl]
    · simp [withdrawAuction, authorize_false_of_ne hcl, applyResult]

/-- Witness for C6: a second Withdraw on a fully drained auction presenting
the current `seq = 2` is rejected with nothing-to-withdraw. -/
theorem c6_terminal_idempotent_witness :
    withdrawAuction commitModel
      ⟨⟨0, 100, 1, 1000, 200, 100, 200, 4, []⟩, ⟨2, none, none, 0, 0⟩⟩
      2 (commitModel 0 0) = .error .nothingToWithdraw :=
  (c6_terminal_idempotent commitModel
    ⟨⟨0, 100, 1, 1000, 200, 100, 200, 4, []⟩, ⟨2, none, none, 0, 0⟩⟩
    2 (commitModel 0 0) (by decide) rfl rfl rfl).1 rfl

/-- Auction IDs as byte strings, ordered by ascending byte order. -/
abbrev AuctionIdBytes := List Nat

/-- Strict ascending byte order on auction IDs (lexicographic on the byte
lists; for the fixed-width 32-byte IDs of the source this is exactly byte
order). -/
def idLt : AuctionIdBytes → AuctionIdBytes → Bool
  | [], [] => false
  | [], _ :: _ => true
  | _ :: _, [] => false
  | a :: as, b :: bs => decide (a < b) || (decide (a = b) && idLt as bs)

/-- Strict ascending `(height, id)` order on scheduler entries. -/
def entryLt (x y : Nat × AuctionIdBytes) : Bool :=
  decide (x.1 < y.1) || (decide (x.1 = y.1) && idLt x.2 y.2)

/-- The scheduler's height-indexed state: the pending `(height, id)` entries,
kept sorted ascending by `(height, id)`. -/
abbrev SchedState := List (Nat × AuctionIdBytes)

/-- Remove every entry for `id` (there is at most one). -/
def removeId (id : AuctionIdBytes) : SchedState → SchedState
  | [] => []
  | e :: es => if e.2 = id then removeId id es else e :: removeId id es

/-- Ordered insertion into the sorted entry list. -/
def insertEntry (x : Nat × AuctionIdBytes) : SchedState → SchedState
  | [] => [x]
  | e :: es => if entryLt x e then x :: e :: es else e :: insertEntry x es

/-- Modelled from the spec, §4.2 `schedule(height, id)`: the engine
unconditionally cancels any existing entry for `id` before rescheduling, then
indexes `id` under `height`. -/
def schedule (h : Nat) (id : AuctionIdBytes) (s : SchedState) : SchedState :=
  insertEntry (h, id) (removeId id s)

/-- Modelled from the spec, §4.2 `cancel(id)`: removes `id` from whatever
height it is currently indexed under. -/
def cancel (id : AuctionIdBytes) (s : SchedState) : SchedState :=
  removeId id s

/-- Modelled from the spec, §4.2 `pop_due(current_height)`: returns the
entries with height `≤ H` in ascending `(height, id)` order and removes them
from the index. -/
def pop_due (H : Nat) (s : SchedState) : SchedState × SchedState :=
  (s.filter (fun e => decide (e.1 ≤ H)), s.filter (fun e => decide (¬ e.1 ≤ H)))

/-- A call to the Trigger Scheduler. -/
inductive SchedOp where
  | schedule (h : Nat) (id : AuctionIdBytes)
  | cancel (id : AuctionIdBytes)
  | popDue (H : Nat)

/-- Apply one scheduler call to the state (the list a `pop_due` returns is
dropped here; the claims inspect the output of a final `pop_due`). -/
def runOp (s : SchedState) : SchedOp → SchedState
  | .schedule h id => schedule h id s
  | .cancel id => cancel id s
  | .popDue H => (pop_due H s).2

/-- Run a finite sequence of scheduler calls from the empty index. -/
def runOps (ops : List SchedOp) : SchedState :=
  ops.foldl runOp []

/-- The claim's reference semantics for a single id: the height of its most
recent `schedule`, unless it was subsequently cancelled or already popped by a
`pop_due` whose cutoff reached that height. -/
def pendingStep (id : AuctionIdBytes) (cur : Option Nat) : SchedOp → Option Nat
  | .schedule h j => if j = id then some h else cur
  | .cancel j => if j = id then none else cur
  | .popDue H =>
    match cur with
    | some h => if h ≤ H then none else some h
    | none => none

/-- The claim's reference semantics over a whole call sequence. -/
def pendingSpec (ops : List SchedOp) (id : AuctionIdBytes) : Option Nat :=
  ops.foldl (pendingStep id) none

theorem idLt_trans {a b c : AuctionIdBytes}
    (h1 : idLt a b = true) (h2 : idLt b c = true) : idLt a c = true := by
  induction a generalizing b c with
  | nil =>
    cases b with
    | nil => simp [idLt] at h1
    | cons y ys =>
      cases c with
      | nil => simp [idLt] at h2
      | cons z zs => simp [idLt]
  | cons x xs ih =>
    cases b with
    | nil => simp [idLt] at h1
    | cons y ys =>
      cases c with
      | nil => simp [idLt] at h2
      | cons z zs =>
        simp only [idLt, Bool.or_eq_true, Bool.and_eq_true, decide_eq_true_eq] at h1 h2 ⊢
        rcases h1 with h1 | ⟨he1, h1'⟩
        · rcases h2 with h2 | ⟨he2, h2'⟩
          · exact Or.inl (Nat.lt_trans h1 h2)
          · exact Or.inl (he2 ▸ h1)
        · rcases h2 with h2 | ⟨he2, h2'⟩
          · exact Or.inl (he1 ▸ h2)
          · exact Or.inr ⟨he1.trans he2, ih h1' h2'⟩

theorem idLt_total {a b : AuctionIdBytes}
    (h1 : idLt a b = false) (h2 : idLt b a = false) : a = b := by
  induction a generalizing b with
  | nil =>
    cases b with
    | nil => rfl
    | cons y ys => simp [idLt] at h1
  | cons x xs ih =>
    cases b with
    | nil => simp [idLt] at h2
    | cons y ys =>
      simp only [idLt, Bool.or_eq_false_iff, Bool.and_eq_false_iff,
        decide_eq_false_iff_not] at h1 h2
      obtain ⟨hxy, h1'⟩ := h1
      obtain ⟨hyx, h2'⟩ := h2
      have hxyeq : x = y := by omega
      subst hxyeq
      rcases h1' with h1' | h1'
      · exact absurd rfl h1'
      · rcases h2' with h2' | h2'
        · exact absurd rfl h2'
        · rw [ih h1' h2']

theorem entryLt_trans {a b c : Nat × AuctionIdBytes}
    (h1 : entryLt a b = true) (h2 : entryLt b c = true) : entryLt a c = true := by
  simp only [entryLt, Bool.or_eq_true, Bool.and_eq_true, decide_eq_true_eq] at h1 h2 ⊢
  rcases h1 with h1 | ⟨he1, h1'⟩
  · rcases h2 with h2 | ⟨he2, h2'⟩
    · exact Or.inl (Nat.lt_trans h1 h2)
    · exact Or.inl (he2 ▸ h1)
  · rcases h2 with h2 | ⟨he2, h2'⟩
    · exact Or.inl (he1 ▸ h2)
    · exact Or.inr ⟨he1.trans he2, idLt_trans h1' h2'⟩

theorem entryLt_total {a b : Nat × AuctionIdBytes}
    (h1 : entryLt a b = false) (h2 : entryLt b a = false) : a = b := by
  simp only [entryLt, Bool.or_eq_false_iff, Bool.and_eq_false_iff,
    decide_eq_false_iff_not] at h1 h2
  obtain ⟨hab, h1'⟩ := h1
  obtain ⟨hba, h2'⟩ := h2
  have h1eq : a.1 = b.1 := by omega
  rcases h1' with h1' | h1'
  · exact absurd h1eq h1'
  · rcases h2' with h2' | h2'
    · exact absurd h1eq.symm h2'
    · exact Prod.ext h1eq (idLt_total h1' h2')

theorem mem_removeId (a : Nat × AuctionIdBytes) (id : AuctionIdBytes) (s : SchedState) :
    a ∈ removeId id s ↔ a ∈ s ∧ a.2 ≠ id := by
  induction s with
  | nil => simp [removeId]
  | cons e es ih =>
    by_cases he : e.2 = id
    · rw [removeId, if_pos he, ih]
      constructor
      · rintro ⟨ha, hne⟩
        exact ⟨List.mem_cons_of_mem _ ha, hne⟩
      · rintro ⟨ha, hne⟩
        rcases List.mem_cons.mp ha with rfl | ha
        · exact absurd he hne
        · exact ⟨ha, hne⟩
    · rw [removeId, if_neg he]
      constructor
      · intro ha
        rcases List.mem_cons.mp ha with rfl | ha
        · exact ⟨List.mem_cons_self _ _, he⟩
        · obtain ⟨ha', hne⟩ := ih.mp ha
          exact ⟨List.mem_cons_of_mem _ ha', hne⟩
      · rintro ⟨ha, hne⟩
        rcases List.mem_cons.mp ha with rfl | ha
        · exact List.mem_cons_self _ _
        · exact List.mem_cons_of_mem _ (ih.mpr ⟨ha, hne⟩)

theorem mem_insertEntry (a x : Nat × AuctionIdBytes) (s : SchedState) :
    a ∈ insertEntry x s ↔ a = x ∨ a ∈ s := by
  induction s with
  | nil => simp [insertEntry]
  | cons e es ih =>
    by_cases hx : entryLt x e = true
    · rw [insertEntry, if_pos hx]
      simp [List.mem_cons]
    · rw [insertEntry, if_neg hx]
      simp only [List.mem_cons, ih]
      tauto

/-- The sortedness invariant on the scheduler index. -/
def SortedSched (s : SchedState) : Prop :=
  s.Pairwise (fun a b => entryLt a b = true)

theorem removeId_sublist (id : AuctionIdBytes) (s : SchedState) :
    List.Sublist (removeId id s) s := by
  induction s with
  | nil => exact List.Sublist.refl _
  | cons e es ih =>
    by_cases he : e.2 = id
    · rw [removeId, if_pos he]
      exact ih.cons e
    · rw [removeId, if_neg he]
      exact ih.cons₂ e

theorem sortedSched_removeId (id : AuctionIdBytes) {s : SchedState}
    (hs : SortedSched s) : SortedSched (removeId id s) :=
  hs.sublist (removeId_sublist id s)

theorem sortedSched_insertEntry {x : Nat × AuctionIdBytes} {l : SchedState}
    (hl : SortedSched l) (hx : ∀ e ∈ l, e ≠ x) : SortedSched (insertEntry x l) := by
  induction l with
  | nil =>
    unfold SortedSched insertEntry
    simp
  | cons e es ih =>
    rcases List.pairwise_cons.mp hl with ⟨he, hes⟩
    by_cases hxe : entryLt x e = true
    · unfold SortedSched
      rw [insertEntry, if_pos hxe]
      refine List.pairwise_cons.mpr ⟨?_, hl⟩
      intro y hy
      rcases List.mem_cons.mp hy with rfl | hy
      · exact hxe
      · exact entryLt_trans hxe (he y hy)
    · unfold SortedSched
      rw [insertEntry, if_neg hxe]
      refine List.pairwise_cons.mpr
        ⟨?_, ih hes (fun e' he' => hx e' (List.mem_cons_of_mem _ he'))⟩
      intro y hy
      rcases (mem_insertEntry y x es).mp hy with rfl | hy
      · cases hb : entryLt e y with
        | true => rfl
        | false =>
          exfalso
          have hxef : entryLt y e = false := by
            cases hxe2 : entryLt y e with
            | true => exact absurd hxe2 hxe
            | false => rfl
          exact hx e (List.mem_cons_self _ _) (entryLt_total hb hxef)
      · exact he y hy

theorem sortedSched_runOp {s : SchedState} (op : SchedOp) (hs : SortedSched s) :
    SortedSched (runOp s op) := by
  cases op with
  | schedule h id =>
    refine sortedSched_insertEntry (sortedSched_removeId id hs) ?_
    intro e he
    have h2 := ((mem_removeId e id s).mp he).2
    intro heq
    exact h2 (congrArg Prod.snd heq)
  | cancel id => exact sortedSched_removeId id hs
  | popDue H => exact hs.sublist (List.filter_sublist s)

theorem sortedSched_runOps (ops : List SchedOp) : SortedSched (runOps ops) := by
  have haux : ∀ (ops' : List SchedOp) (s : SchedState),
      SortedSched s → SortedSched (ops'.foldl runOp s) := by
    intro ops'
    induction ops' with
    | nil => exact fun s hs => hs
    | cons op ops' ih => exact fun s hs => ih _ (sortedSched_runOp op hs)
  exact haux ops [] (List.Pairwise.nil)

/-- The correspondence between the scheduler index and the claim's per-id
reference semantics: the index holds `(h, id)` exactly when the reference
pending height of `id` is `h`. -/
def MemInv (s : SchedState) (f : AuctionIdBytes → Option Nat) : Prop :=
  ∀ (h : Nat) (id : AuctionIdBytes), (h, id) ∈ s ↔ f id = some h

theorem memInv_runOp {s : SchedState} {f : AuctionIdBytes → Option Nat}
    (hs : MemInv s f) (op : SchedOp) :
    MemInv (runOp s op) (fun id => pendingStep id (f id) op) := by
  cases op with
  | schedule h0 id0 =>
    intro h id
    have hmem := hs h id
    simp only [runOp, schedule, pendingStep, mem_insertEntry, mem_removeId, hmem,
      Prod.mk.injEq]
    by_cases hid : id = id0
    · subst hid
      simp [eq_comm]
    · simp [hid, Ne.symm hid]
  | cancel id0 =>
    intro h id
    have hmem := hs h id
    simp only [runOp, cancel, pendingStep, mem_removeId, hmem]
    by_cases hid : id = id0
    · subst hid
      simp
    · simp [hid, Ne.symm hid]
  | popDue H =>
    intro h id
    have hmem := hs h id
    simp only [runOp, pop_due, List.mem_filter, decide_eq_true_eq, hmem, pendingStep]
    cases hf : f id with
    | none => simp
    | some h' =>
      dsimp only
      constructor
      · rintro ⟨heq, hnle⟩
        injection heq with heq
        subst heq
        rw [if_neg hnle]
      · intro hr
        by_cases hH : h' ≤ H
        · rw [if_pos hH] at hr
          exact Option.noConfusion hr
        · rw [if_neg hH] at hr
          injection hr with hr
          subst hr
          exact ⟨rfl, hH⟩

theorem memInv_runOps (ops : List SchedOp) : MemInv (runOps ops) (pendingSpec ops) := by
  have haux : ∀ (ops' : List SchedOp) (s : SchedState) (f : AuctionIdBytes → Option Nat),
      MemInv s f →
      MemInv (ops'.foldl runOp s) (fun id => ops'.foldl (pendingStep id) (f id)) := by
    intro ops'
    induction ops' with
    | nil => exact fun s f hs => hs
    | cons op ops' ih =>
      intro s f hs
      exact ih _ _ (memInv_runOp hs op)
  have hbase : MemInv [] (fun _ => none) := by
    intro h id
    simp
  exact haux ops [] (fun _ => none) hbase

/-- C4: after any finite sequence of `schedule`/`cancel`/`pop_due` calls on
the Trigger Scheduler, `pop_due(H)` returns exactly the entries whose id's
most recent `schedule` height is `≤ H` and that were not subsequently
cancelled or already popped, and the returned list is sorted ascending by
`(height, id)`, ids at equal heights in ascending byte order. -/
theorem c4_scheduler_correct (ops : List SchedOp) (H : Nat) :
    (∀ (h : Nat) (id : AuctionIdBytes),
        (h, id) ∈ (pop_due H (runOps ops)).1 ↔
          (pendingSpec ops id = some h ∧ h ≤ H)) ∧
    (pop_due H (runOps ops)).1.Pairwise (fun x y => entryLt x y = true) := by
  constructor
  · intro h id
    simp only [pop_due, List.mem_filter, decide_eq_true_eq]
    rw [memInv_runOps ops h id]
  · exact (sortedSched_runOps ops).sublist (List.filter_sublist _)

/-- The bundle of optional app-parameter changes, after `ChangedAppParameters`
in `proposal.rs`.  The individual parameter types live in other crates whose
conversion code is outside the sources here; each is modelled as an opaque
natural-number payload whose proto and domain forms coincide, so the
field-wise `Into`/`TryInto` maps of `proposal.rs` are identities. -/
structure ChangedAppParameters where
  community_pool_params : Option Nat
  distributions_params : Option Nat
  ibc_params : Option Nat
  fee_params : Option Nat
  funding_params : Option Nat
  governance_params : Option Nat
  sct_params : Option Nat
  shielded_pool_params : Option Nat
  stake_params : Option Nat
  dex_params : Option Nat
deriving DecidableEq, Repr

/-- The machine-interpretable body of a proposal, after `ProposalPayload` in
`proposal.rs`. -/
inductive ProposalPayload where
  | signaling (commit : Option String)
  | emergency (halt_chain : Bool)
  | parameterChange (old new : ChangedAppParameters)
  | communityPoolSpend (transaction_plan : List Nat)
  | upgradePlan (height : Nat)
  | freezeIbcClient (client_id : String)
  | unfreezeIbcClient (client_id : String)
deriving DecidableEq, Repr

/-- A governance proposal, after `Proposal` in `proposal.rs`. -/
structure Proposal where
  id : Nat
  title : String
  description : String
  payload : ProposalPayload
deriving DecidableEq, Repr

/-- A protobuf `Any`, after `pbjson_types::Any` as used in `proposal.rs`. -/
structure PbAny where
  type_url : String
  value : List Nat
deriving DecidableEq, Repr

/-- The protobuf payload oneof, after `pb::proposal::Payload`: the `commit`
string is not optional, and the parameter-change and community-pool-spend
sub-messages are optional. -/
inductive PbProposalPayload where
  | signaling (commit : String)
  | emergency (halt_chain : Bool)
  | parameterChange (old_parameters new_parameters : Option ChangedAppParameters)
  | communityPoolSpend (transaction_plan : Option PbAny)
  | upgradePlan (height : Nat)
  | freezeIbcClient (client_id : String)
  | unfreezeIbcClient (client_id : String)
deriving DecidableEq, Repr

/-- The protobuf proposal message, after `pb::Proposal`: the payload is
optional. -/
structure PbProposal where
  id : Nat
  title : String
  description : String
  payload : Option PbProposalPayload
deriving DecidableEq, Repr

/-- The protobuf type URL for a transaction plan (`TRANSACTION_PLAN_TYPE_URL`
in `proposal.rs`). -/
def TRANSACTION_PLAN_TYPE_URL : String :=
  ("/penumbra.core.transaction.v1.TransactionPlan")

/-- `From<Proposal> for pb::Proposal` in `proposal.rs`: a `Signaling` commit
of `None` is encoded as the empty string; a `CommunityPoolSpend` plan is
wrapped in an `Any` with the transaction-plan type URL. -/
def proposalToPb (inner : Proposal) : PbProposal :=
  { id := inner.id
    title := inner.title
    description := inner.description
    payload :=
      some (match inner.payload with
        | .signaling commit =>
          .signaling (match commit with | some c => c | none => (""))
        | .emergency halt_chain => .emergency halt_chain
        | .parameterChange old new => .parameterChange (some old) (some new)
        | .communityPoolSpend transaction_plan =>
          .communityPoolSpend (some ⟨TRANSACTION_PLAN_TYPE_URL, transaction_plan⟩)
        | .upgradePlan height => .upgradePlan height
        | .freezeIbcClient client_id => .freezeIbcClient client_id
        | .unfreezeIbcClient client_id => .unfreezeIbcClient client_id) }

/-- Typed stand-ins for the `anyhow` error messages of
`TryFrom<pb::Proposal> for Proposal` in `proposal.rs`. -/
inductive ProposalError where
  | missingPayload
  | missingOldParameters
  | missingNewParameters
  | missingTransactionPlan
  | unknownTransactionPlanTypeUrl
deriving DecidableEq, Repr

/-- `TryFrom<pb::Proposal> for Proposal` in `proposal.rs`: a missing payload
or sub-message fails, an empty `Signaling` commit string decodes to `None`,
and a `CommunityPoolSpend` plan must carry the transaction-plan type URL. -/
def proposalTryFromPb (inner : PbProposal) : Except ProposalError Proposal :=
  match inner.payload with
  | none => .error .missingPayload
  | some pl =>
    match pl with
    | .signaling commit =>
      .ok { id := inner.id, title := inner.title, description := inner.description
            payload := .signaling (if commit.isEmpty then none else some commit) }
    | .emergency halt_chain =>
      .ok { id := inner.id, title := inner.title, description := inner.description
            payload := .emergency halt_chain }
    | .parameterChange old_parameters new_parameters =>
      match old_parameters with
      | none => .error .missingOldParameters
      | some o =>
        match new_parameters with
        | none => .error .missingNewParameters
        | some n =>
          .ok { id := inner.id, title := inner.title, description := inner.description
                payload := .parameterChange o n }
    | .communityPoolSpend transaction_plan =>
      match transaction_plan with
      | none => .error .missingTransactionPlan
      | some any =>
        if any.type_url ≠ TRANSACTION_PLAN_TYPE_URL then
          .error .unknownTransactionPlanTypeUrl
        else
          .ok { id := inner.id, title := inner.title, description := inner.description
                payload := .communityPoolSpend any.value }
    | .upgradePlan height =>
      .ok { id := inner.id, title := inner.title, description := inner.description
            payload := .upgradePlan height }
    | .freezeIbcClient client_id =>
      .ok { id := inner.id, title := inner.title, description := inner.description
            payload := .freezeIbcClient client_id }
    | .unfreezeIbcClient client_id =>
      .ok { id := inner.id, title := inner.title, description := inner.description
            payload := .unfreezeIbcClient client_id }

/-- C9: converting a `Proposal` to `pb::Proposal` and back succeeds and
returns the original proposal, except that a `Signaling` payload whose commit
is `Some` of the empty string comes back as `Signaling` with commit `None`. -/
theorem c9_proposal_roundtrip (p : Proposal) :
    (p.payload ≠ .signaling (some ("")) →
      proposalTryFromPb (proposalToPb p) = .ok p) ∧
    (p.payload = .signaling (some ("")) →
      proposalTryFromPb (proposalToPb p) =
        .ok { p with payload := .signaling none }) := by
  obtain ⟨id, title, descr, payload⟩ := p
  cases payload with
  | signaling commit =>
    cases commit with
    | none =>
      refine ⟨fun _ => ?_, fun h => absurd h (by simp)⟩
      simp [proposalToPb, proposalTryFromPb, String.isEmpty_iff]
    | some c =>
      by_cases hc : c = ""
      · subst hc
        refine ⟨fun h => absurd rfl h, fun _ => ?_⟩
        simp [proposalToPb, proposalTryFromPb, String.isEmpty_iff]
      · refine ⟨fun _ => ?_, fun h => absurd h (by simp [hc])⟩
        simp [proposalToPb, proposalTryFromPb, String.isEmpty_iff, hc]
  | emergency halt_chain =>
    refine ⟨fun _ => ?_, fun h => absurd h (by simp)⟩
    simp [proposalToPb, proposalTryFromPb]
  | parameterChange old new =>
    refine ⟨fun _ => ?_, fun h => absurd h (by simp)⟩
    simp [proposalToPb, proposalTryFromPb]
  | communityPoolSpend transaction_plan =>
    refine ⟨fun _ => ?_, fun h => absurd h (by simp)⟩
    simp [proposalToPb, proposalTryFromPb]
  | upgradePlan height =>
    refine ⟨fun _ => ?_, fun h => absurd h (by simp)⟩
    simp [proposalToPb, proposalTryFromPb]
  | freezeIbcClient client_id =>
    refine ⟨fun _ => ?_, fun h => absurd h (by simp)⟩
    simp [proposalToPb, proposalTryFromPb]
  | unfreezeIbcClient client_id =>
    refine ⟨fun _ => ?_, fun h => absurd h (by simp)⟩
    simp [proposalToPb, proposalTryFromPb]

/-- Witness for C9 at a concrete non-exceptional proposal. -/
theorem c9_proposal_roundtrip_witness :
    proposalTryFromPb (proposalToPb ⟨7, ("t"), ("d"), .upgradePlan 5⟩) =
      .ok ⟨7, ("t"), ("d"), .upgradePlan 5⟩ :=
  (c9_proposal_roundtrip ⟨7, ("t"), ("d"), .upgradePlan 5⟩).1
    (fun h => ProposalPayload.noConfusion h)

/-- The byte length of a swap ciphertext.  `ciphertext.rs` imports
`SWAP_CIPHERTEXT_BYTES` from its parent swap module, which is outside the
sources available here; the conversions under verification are parametric in
the value, so any fixed value preserves them, and a representative constant is
used. -/
def SWAP_CIPHERTEXT_BYTES : Nat := 272

/-- `SwapCiphertext` in `ciphertext.rs`: a fixed-size byte array
`[u8; SWAP_CIPHERTEXT_BYTES]`, modelled as a length-constrained byte list. -/
def SwapCiphertext := { bs : List Nat // bs.length = SWAP_CIPHERTEXT_BYTES }

/-- `TryFrom<&[u8]> for SwapCiphertext` in `ciphertext.rs`:
`SwapCiphertext(slice[..].try_into()?)` — the slice-to-array conversion
succeeds exactly when the slice has the array's length, and copies the bytes
verbatim. -/
def swapCiphertextTryFrom (slice : List Nat) : Except Unit SwapCiphertext :=
  if h : slice.length = SWAP_CIPHERTEXT_BYTES then .ok ⟨slice, h⟩
  else .error ()

/-- C10: `SwapCiphertext::try_from` on a byte slice succeeds iff the slice's
length equals `SWAP_CIPHERTEXT_BYTES`, in which case the resulting ciphertext
wraps exactly the bytes of the slice; every other length is an error. -/
theorem c10_swap_ciphertext_try_from (slice : List Nat) :
    ((∃ ct, swapCiphertextTryFrom slice = .ok ct) ↔
      slice.length = SWAP_CIPHERTEXT_BYTES) ∧
    (∀ ct, swapCiphertextTryFrom slice = .ok ct → ct.val = slice) ∧
    (slice.length ≠ SWAP_CIPHERTEXT_BYTES →
      swapCiphertextTryFrom slice = .error ()) := by
  refine ⟨⟨?_, ?_⟩, ?_, ?_⟩
  · rintro ⟨ct, hct⟩
    by_cases h : slice.length = SWAP_CIPHERTEXT_BYTES
    · exact h
    · rw [swapCiphertextTryFrom, dif_neg h] at hct
      exact Except.noConfusion hct
  · intro h
    exact ⟨⟨slice, h⟩, by rw [swapCiphertextTryFrom, dif_pos h]⟩
  · intro ct hct
    by_cases h : slice.length = SWAP_CIPHERTEXT_BYTES
    · rw [swapCiphertextTryFrom, dif_pos h] at hct
      injection hct with hct
      rw [← hct]
    · rw [swapCiphertextTryFrom, dif_neg h] at hct
      exact Except.noConfusion hct
  · intro h
    rw [swapCiphertextTryFrom, dif_neg h]

/-- Witness for C10: a slice of exactly `SWAP_CIPHERTEXT_BYTES` zero bytes
converts successfully into a ciphertext wrapping those bytes. -/
theorem c10_swap_ciphertext_try_from_witness :
    (⟨List.replicate SWAP_CIPHERTEXT_BYTES 0, by simp⟩ : SwapCiphertext).val =
      List.replicate SWAP_CIPHERTEXT_BYTES 0 :=
  (c10_swap_ciphertext_try_from (List.replicate SWAP_CIPHERTEXT_BYTES 0)).2.1
    ⟨List.replicate SWAP_CIPHERTEXT_BYTES 0, by simp⟩
    (by rw [swapCiphertextTryFrom, dif_pos (by simp)])
